import Mathlib

/-!
Shallow embedding of the task-tracking application (Todo Canvas).

The authoritative source is the main application component
(`src/unnamed/part_000`): task/project data model, the Firestore document
mapper (`mapTaskDoc`, `mapProjectDoc`), the derived views (`inboxTasks`),
quick-add (`addQuickTask`), the task update / completion-cascade engine
(`updateTask`, `getDescendantTasks`) and the project completion cascade
(the project status change handler, embedded here as `setProjectState`).

Task states are modelled as raw strings, exactly as they exist at the
JavaScript runtime: the data mapper performs no validation of the `state`
field (it only defaults an absent one), so a mapped task may carry an
arbitrary string state.  Time is passed explicitly: every operation that
calls `nowIso()` in the source receives the current timestamp `now` as an
argument, and the blocking `window.confirm` prompt is modelled by a
boolean argument `confirmed` giving the user's answer.

Each mutating handler returns, besides the new collections, a trace of
events in dispatch order: `localUpdate` for a local cache replacement
(`setTasks` / `setProjects`) and `remoteBatch ops` for a group of remote
writes dispatched together (a single awaited call is a singleton batch; a
`Promise.all` over several `updateDoc` calls is one batch, since those
writes are issued concurrently).
-/

namespace TodoApp

/-- Canonical in-memory task record (type `Task` in the source).
`state` is a string because the runtime representation is an unvalidated
string; the enumerated states are listed in `taskStates`. -/
structure Task where
  id : String
  text : String
  projectId : Option String
  parentId : Option String
  state : String
  createdAt : String
  updatedAt : String
  dueAt : Option String
  scheduledAt : Option String
  doneAt : Option String
  order : Int
  deriving Repr, DecidableEq

/-- Canonical in-memory project record (type `Project` in the source). -/
structure Project where
  id : String
  name : String
  state : String
  order : Int
  createdAt : String
  deriving Repr, DecidableEq

/-- The enumerated task states of the main variant
(`const taskStates: TaskState[]`). -/
def taskStates : List String := ["inbox", "today", "active", "done"]

/-- A raw field value as stored in a document: a JSON string, a Firestore
timestamp object (carrying the ISO string its `toDate()` would produce),
a number, or an explicit null. -/
inductive RawValue where
  | vstr (s : String)
  | vtimestamp (s : String)
  | vnum (n : Int)
  | vnull
  deriving Repr, DecidableEq

/-- The source function `toIsoString`: JS-falsy values (`undefined`, `null`,
the empty string, the number 0) yield `null`; a string is returned as is;
an object with `toDate` is converted; any other value (e.g. a number)
falls through to `null`. -/
def toIsoString : Option RawValue → Option String
  | none => none
  | some RawValue.vnull => none
  | some (RawValue.vstr s) => if s = "" then none else some s
  | some (RawValue.vtimestamp s) => some s
  | some (RawValue.vnum _) => none

/-- A raw stored task document (`Partial<Task>`): every field may be
absent.  `order` is an arbitrary raw value because the source checks
`typeof data.order === 'number'` at runtime. -/
structure RawTaskDoc where
  text : Option String := none
  projectId : Option String := none
  parentId : Option String := none
  state : Option String := none
  createdAt : Option RawValue := none
  updatedAt : Option RawValue := none
  dueAt : Option RawValue := none
  scheduledAt : Option RawValue := none
  doneAt : Option RawValue := none
  order : Option RawValue := none
  deriving Repr, DecidableEq

/-- A raw stored project document (`Partial<Project>`). -/
structure RawProjectDoc where
  name : Option String := none
  state : Option String := none
  order : Option RawValue := none
  createdAt : Option RawValue := none
  deriving Repr, DecidableEq

/-- The source function `mapTaskDoc`.  `now` is the value `nowIso()` would
return during the mapping (used as the fallback for created/updated
timestamps). -/
def mapTaskDoc (id : String) (data : RawTaskDoc) (now : String) : Task :=
  { id := id
    text := data.text.getD ""
    projectId := data.projectId
    parentId := data.parentId
    state := data.state.getD "inbox"
    createdAt := (toIsoString data.createdAt).getD now
    updatedAt := (toIsoString data.updatedAt).getD now
    dueAt := toIsoString data.dueAt
    scheduledAt := toIsoString data.scheduledAt
    doneAt := toIsoString data.doneAt
    order := match data.order with
      | some (RawValue.vnum n) => n
      | _ => 0 }

/-- The source function `mapProjectDoc`. -/
def mapProjectDoc (id : String) (data : RawProjectDoc) (now : String) : Project :=
  { id := id
    name := data.name.getD "Untitled"
    state := data.state.getD "active"
    order := match data.order with
      | some (RawValue.vnum n) => n
      | _ => 0
    createdAt := (toIsoString data.createdAt).getD now }

/-- The derived Inbox view (`inboxTasks` memo in the source): tasks in
state `inbox`, sorted ascending by `order` (JS `Array.prototype.sort`
with comparator `a.order - b.order` is a stable ascending sort, modelled
by the stable `mergeSort`). -/
def inboxTasks (tasks : List Task) : List Task :=
  (tasks.filter (fun t => t.state = "inbox")).mergeSort
    (fun a b => a.order ≤ b.order)

/-- A partial update passed to `updateTask` (the `patch` argument).  Only
the fields the UI actually patches are represented; `some v` means the
field is present in the patch. -/
structure TaskPatch where
  text : Option String := none
  projectId : Option (Option String) := none
  parentId : Option (Option String) := none
  state : Option String := none
  scheduledAt : Option (Option String) := none
  deriving Repr, DecidableEq

/-- JS truthiness of an optional string (used where the source tests
`patch.state && ...`): absent and the empty string are falsy. -/
def jsTruthyStr : Option String → Bool
  | none => false
  | some s => s ≠ ""

/-- The object spread `{ ...task, ...patch }`: present patch fields
override the task's. -/
def applyPatch (task : Task) (p : TaskPatch) : Task :=
  { task with
    text := p.text.getD task.text
    projectId := p.projectId.getD task.projectId
    parentId := p.parentId.getD task.parentId
    state := p.state.getD task.state
    scheduledAt := p.scheduledAt.getD task.scheduledAt }

/-- An ASCII whitespace character (space, tab, newline, carriage
return). -/
def isWs (c : Char) : Bool := c = ' ' ∨ c = '\t' ∨ c = '\n' ∨ c = '\r'

/-- JS `String.prototype.trim`: strips leading and trailing whitespace
(modelled on the ASCII whitespace characters). -/
def jsTrim (s : String) : String :=
  String.mk (((s.data.dropWhile isWs).reverse.dropWhile isWs).reverse)

/-- A remote (Firestore) write. -/
inductive RemoteOp where
  /-- The insert `addDoc(collection(db, 'tasks'), taskData)`. -/
  | insertTask (text : String) (order : Int)
  /-- The cascade write: `updateDoc` of `state: 'done'` with fresh server
  timestamps for `doneAt` and `updatedAt`. -/
  | updateTaskDone (id : String)
  /-- The field update `updateDoc(doc(db, 'tasks', id), updates)` of the
  non-cascade branch;
  `doneAtNull` records whether `updates.doneAt = null` was included. -/
  | updateTaskFields (id : String) (patch : TaskPatch) (doneAtNull : Bool)
  /-- The project write: `updateDoc` of the project document's `state`. -/
  | updateProjectState (id : String) (state : String)
  deriving Repr, DecidableEq

/-- One step of a handler's externally visible behaviour, in dispatch
order. -/
inductive Event where
  /-- a local cache replacement: `setTasks` or `setProjects` -/
  | localUpdate (which : String)
  /-- remote writes dispatched together (one awaited call, or one
  `Promise.all` over several) -/
  | remoteBatch (ops : List RemoteOp)
  deriving Repr, DecidableEq

/-- Helper for the dispatch-order check: `seenLocalFirst seen tr` is true when every remote batch in `tr` is
preceded by a local update (`seen` records whether one was already
seen). -/
def seenLocalFirst : Bool → List Event → Bool
  | _, [] => true
  | _, Event.localUpdate _ :: rest => seenLocalFirst true rest
  | seen, Event.remoteBatch _ :: rest => seen && seenLocalFirst seen rest

/-- Every remote write in the trace is dispatched strictly after some
local cache update. -/
def localBeforeRemote (tr : List Event) : Bool :=
  seenLocalFirst false tr

/-- The source function `getDescendantTasks`: all transitive descendants of
`taskId` via `parentId`, children first, each child followed by its own
descendants.  The JS recursion has no termination guard (it diverges on a
parent cycle, an assumed-absent precondition); the embedding bounds the
recursion depth by a fuel parameter. -/
def getDescendantTasksAux (fuel : Nat) (taskId : String) (allTasks : List Task) :
    List Task :=
  match fuel with
  | 0 => []
  | fuel + 1 =>
    let children := allTasks.filter (fun t => t.parentId = some taskId)
    children ++ children.flatMap (fun child => getDescendantTasksAux fuel child.id allTasks)

/-- The source function `getDescendantTasks`, with enough fuel for any acyclic task forest
(a descendant chain cannot be longer than the task list). -/
def getDescendantTasks (taskId : String) (allTasks : List Task) : List Task :=
  getDescendantTasksAux allTasks.length taskId allTasks

/-- The source function `addQuickTask`.  `quickText` is the quick-add input,
`generatedId` the identifier the remote insert returns, `now` the
current time.  Returns the new task list and the dispatch trace.
The remote insert is awaited before the local append (the generated id is
needed for the local record). -/
def addQuickTask (tasks : List Task) (quickText : String) (generatedId : String)
    (now : String) : List Task × List Event :=
  let trimmed := jsTrim quickText
  if trimmed = "" then
    (tasks, [])
  else
    let rootOrders := (tasks.filter (fun t => t.parentId = none)).map Task.order
    let maxRoot : Int := match rootOrders with
      | [] => 0
      | x :: xs => xs.foldl max x
    let nextOrder := maxRoot + 10
    let newTask : Task :=
      { id := generatedId
        text := trimmed
        projectId := some "p-default"
        parentId := none
        state := "inbox"
        createdAt := now
        updatedAt := now
        dueAt := none
        scheduledAt := none
        doneAt := none
        order := nextOrder }
    (tasks ++ [newTask],
      [Event.remoteBatch [RemoteOp.insertTask trimmed nextOrder],
       Event.localUpdate "tasks"])

/-- The source function `updateTask`.  `confirmed` is the answer
`window.confirm` would give if the prompt is shown; `now` the current
time.  Returns the new task list and the dispatch trace. -/
def updateTask (tasks : List Task) (id : String) (patch : TaskPatch)
    (confirmed : Bool) (now : String) : List Task × List Event :=
  if patch.state = some "done" then
    let descendants := getDescendantTasks id tasks
    let incompletedDescendants := descendants.filter (fun t => t.state ≠ "done")
    if incompletedDescendants.length > 0 ∧ ¬confirmed then
      (tasks, [])
    else
      let allToUpdate := id :: descendants.map Task.id
      let newTasks := tasks.map (fun task =>
        if ¬(allToUpdate.contains task.id) then task
        else { task with state := "done", doneAt := some now, updatedAt := now })
      (newTasks,
        [Event.localUpdate "tasks",
         Event.remoteBatch (allToUpdate.map RemoteOp.updateTaskDone)])
  else
    let newTasks := tasks.map (fun task =>
      if task.id ≠ id then task
      else
        let doneAt := if jsTruthyStr patch.state ∧ task.state = "done" then none
          else task.doneAt
        { applyPatch task patch with doneAt := doneAt, updatedAt := now })
    let currentTask := tasks.find? (fun t => t.id = id)
    let doneAtNull := jsTruthyStr patch.state &&
      (currentTask.map (fun t => t.state == "done")).getD false
    (newTasks,
      [Event.localUpdate "tasks",
       Event.remoteBatch [RemoteOp.updateTaskFields id patch doneAtNull]])

/-- The project status change handler from the source (the `onChange` of
the project status select).  `selectedProjectId` is the project being
edited, `newState` the chosen state, `confirmed` the answer the
confirmation prompt would get, `now` the current time.  Returns the new
task list, the new project list and the dispatch trace. -/
def setProjectState (tasks : List Task) (projects : List Project)
    (selectedProjectId : String) (newState : String) (confirmed : Bool)
    (now : String) : List Task × List Project × List Event :=
  let projectUpdateTrace :=
    [Event.remoteBatch [RemoteOp.updateProjectState selectedProjectId newState],
     Event.localUpdate "projects"]
  let newProjects := projects.map (fun p =>
    if p.id = selectedProjectId then { p with state := newState } else p)
  if newState = "done" then
    let projTasks := tasks.filter (fun t => t.projectId = some selectedProjectId)
    let incompletedTasks := projTasks.filter (fun t => t.state ≠ "done")
    if incompletedTasks.length > 0 then
      if ¬confirmed then
        (tasks, projects, [])
      else
        let newTasks := tasks.map (fun task =>
          if task.projectId ≠ some selectedProjectId ∨ task.state = "done" then task
          else { task with state := "done", doneAt := some now, updatedAt := now })
        (newTasks, newProjects,
          [Event.localUpdate "tasks",
           Event.remoteBatch (incompletedTasks.map (fun t => RemoteOp.updateTaskDone t.id))]
            ++ projectUpdateTrace)
    else
      (tasks, newProjects, projectUpdateTrace)
  else
    (tasks, newProjects, projectUpdateTrace)

/-! ## Helper lemmas -/

/-- Every task produced by the descendant traversal comes from the task
list. -/
theorem mem_of_mem_getDescendantTasksAux {fuel : Nat} {tid : String}
    {tasks : List Task} {t : Task} (h : t ∈ getDescendantTasksAux fuel tid tasks) :
    t ∈ tasks := by
  induction fuel generalizing tid with
  | zero => simp [getDescendantTasksAux] at h
  | succ n ih =>
    simp only [getDescendantTasksAux, List.mem_append, List.mem_flatMap] at h
    rcases h with h | ⟨c, _, hd⟩
    · exact List.mem_of_mem_filter h
    · exact ih hd

/-- Descendants are drawn from the task list. -/
theorem mem_of_mem_getDescendantTasks {tid : String} {tasks : List Task} {t : Task}
    (h : t ∈ getDescendantTasks tid tasks) : t ∈ tasks :=
  mem_of_mem_getDescendantTasksAux h

/-- Marking a task as done with the prompt answered `true` always
proceeds: every task whose id is the target's or a descendant's becomes
done with fresh timestamps, and one concurrent batch of remote writes
covers exactly those ids.  More generally the cascade proceeds whenever
the decline guard (some descendant incomplete and the prompt declined)
is off. -/
theorem updateTask_done_proceeds (tasks : List Task) (tid : String) (patch : TaskPatch)
    (c : Bool) (now : String) (hp : patch.state = some "done")
    (hok : ¬(((getDescendantTasks tid tasks).filter (fun t => t.state ≠ "done")).length > 0
      ∧ ¬c)) :
    updateTask tasks tid patch c now =
      (tasks.map (fun task =>
        if ¬((tid :: (getDescendantTasks tid tasks).map Task.id).contains task.id) then task
        else { task with state := "done", doneAt := some now, updatedAt := now }),
       [Event.localUpdate "tasks",
        Event.remoteBatch ((tid :: (getDescendantTasks tid tasks).map Task.id).map
          RemoteOp.updateTaskDone)]) := by
  rw [updateTask.eq_def]
  simp only [hp]
  rw [if_pos trivial, if_neg hok]

/-- With the prompt answered `true`, marking a task done always
proceeds. -/
theorem updateTask_done_confirmed (tasks : List Task) (tid : String) (patch : TaskPatch)
    (now : String) (hp : patch.state = some "done") :
    updateTask tasks tid patch true now =
      (tasks.map (fun task =>
        if ¬((tid :: (getDescendantTasks tid tasks).map Task.id).contains task.id) then task
        else { task with state := "done", doneAt := some now, updatedAt := now }),
       [Event.localUpdate "tasks",
        Event.remoteBatch ((tid :: (getDescendantTasks tid tasks).map Task.id).map
          RemoteOp.updateTaskDone)]) :=
  updateTask_done_proceeds tasks tid patch true now hp (by simp)

/-- With at least one incomplete descendant and the prompt declined,
marking a task done does nothing. -/
theorem updateTask_done_declined (tasks : List Task) (tid : String) (patch : TaskPatch)
    (now : String) (hp : patch.state = some "done")
    (h : ((getDescendantTasks tid tasks).filter (fun t => t.state ≠ "done")).length > 0) :
    updateTask tasks tid patch false now = (tasks, []) := by
  rw [updateTask.eq_def]
  simp only [hp]
  rw [if_pos trivial]
  have hcond : (((getDescendantTasks tid tasks).filter (fun t => t.state ≠ "done")).length > 0
      ∧ ¬((false : Bool) = true)) := ⟨h, by simp⟩
  rw [if_pos hcond]

/-- Pointwise effect of a confirmed done-cascade: each task of the list
survives unchanged, or — when its id is the target's or one of the
descendant traversal's — re-appears as done with fresh timestamps. -/
theorem updateTask_done_mem (tasks : List Task) (tid now : String) (t : Task)
    (ht : t ∈ tasks) :
    (if t.id = tid ∨ t.id ∈ (getDescendantTasks tid tasks).map Task.id
     then { t with state := "done", doneAt := some now, updatedAt := now } else t)
      ∈ (updateTask tasks tid { state := some "done" } true now).1 := by
  rw [updateTask_done_confirmed tasks tid _ now rfl]
  have h := List.mem_map_of_mem (fun task : Task =>
      if ¬((tid :: (getDescendantTasks tid tasks).map Task.id).contains task.id) then task
      else { task with state := "done", doneAt := some now, updatedAt := now }) ht
  have heq : (fun task : Task =>
      if ¬((tid :: (getDescendantTasks tid tasks).map Task.id).contains task.id) then task
      else { task with state := "done", doneAt := some now, updatedAt := now }) t
      = (if t.id = tid ∨ t.id ∈ (getDescendantTasks tid tasks).map Task.id
         then { t with state := "done", doneAt := some now, updatedAt := now } else t) := by
    simp only [List.contains, List.elem_eq_mem, List.mem_cons, decide_eq_true_eq, not_not,
      ite_not]
  rw [heq] at h
  exact h

/-- The non-cascade branch of `updateTask` (the patch does not set state
to done): only the matching task is rewritten, with `doneAt` cleared when
leaving the done state, and a single remote field update is
dispatched. -/
theorem updateTask_nondone (tasks : List Task) (tid : String) (patch : TaskPatch)
    (c : Bool) (now : String) (hp : patch.state ≠ some "done") :
    updateTask tasks tid patch c now =
      (tasks.map (fun task =>
        if task.id ≠ tid then task
        else { applyPatch task patch with
               doneAt := if jsTruthyStr patch.state ∧ task.state = "done" then none
                 else task.doneAt,
               updatedAt := now }),
       [Event.localUpdate "tasks",
        Event.remoteBatch [RemoteOp.updateTaskFields tid patch
          (jsTruthyStr patch.state &&
            ((tasks.find? (fun t => t.id = tid)).map (fun t => t.state == "done")).getD
              false)]]) := by
  rw [updateTask.eq_def]
  rw [if_neg hp]

/-- With at least one incomplete owned task and the prompt declined,
setting the project state to done does nothing. -/
theorem setProjectState_declined (tasks : List Task) (projects : List Project)
    (pid now : String)
    (h : ((tasks.filter (fun t => t.projectId = some pid)).filter
      (fun t => t.state ≠ "done")).length > 0) :
    setProjectState tasks projects pid "done" false now = (tasks, projects, []) := by
  rw [setProjectState.eq_def]
  simp only []
  rw [if_pos trivial, if_pos h, if_pos (show ¬((false : Bool) = true) by simp)]

/-- With at least one incomplete owned task and the prompt accepted,
setting the project state to done rewrites every incomplete owned task to
done, marks the project done, and dispatches: a concurrent batch of task
updates, then the project update, then the local project replacement. -/
theorem setProjectState_confirmed (tasks : List Task) (projects : List Project)
    (pid now : String)
    (h : ((tasks.filter (fun t => t.projectId = some pid)).filter
      (fun t => t.state ≠ "done")).length > 0) :
    setProjectState tasks projects pid "done" true now =
      (tasks.map (fun task =>
        if task.projectId ≠ some pid ∨ task.state = "done" then task
        else { task with state := "done", doneAt := some now, updatedAt := now }),
       projects.map (fun p => if p.id = pid then { p with state := "done" } else p),
       [Event.localUpdate "tasks",
        Event.remoteBatch (((tasks.filter (fun t => t.projectId = some pid)).filter
          (fun t => t.state ≠ "done")).map (fun t => RemoteOp.updateTaskDone t.id)),
        Event.remoteBatch [RemoteOp.updateProjectState pid "done"],
        Event.localUpdate "projects"]) := by
  rw [setProjectState.eq_def]
  simp only []
  rw [if_pos trivial, if_pos h, if_neg (show ¬¬True by simp)]
  rfl

/-! ## Concrete scenario used by witnesses and counterexamples

A project `p1` owning three tasks: root task `T` (active), its child
`D1` (active) and its child `D2` (already done at `"d1"`). -/

def tskT : Task :=
  { id := "T", text := "root", projectId := some "p1", parentId := none,
    state := "active", createdAt := "d0", updatedAt := "d0", dueAt := none,
    scheduledAt := none, doneAt := none, order := 10 }

def tskD1 : Task :=
  { id := "D1", text := "sub one", projectId := some "p1", parentId := some "T",
    state := "active", createdAt := "d0", updatedAt := "d0", dueAt := none,
    scheduledAt := none, doneAt := none, order := 10 }

def tskD2 : Task :=
  { id := "D2", text := "sub two", projectId := some "p1", parentId := some "T",
    state := "done", createdAt := "d0", updatedAt := "d1", dueAt := none,
    scheduledAt := none, doneAt := some "d1", order := 20 }

def cascadeTasks : List Task := [tskT, tskD1, tskD2]

def projHome : Project :=
  { id := "p1", name := "Home", state := "active", order := 10, createdAt := "d0" }

/-! ## Claims -/

/-- **C1 counterexample.** In `cascadeTasks`, task `T` has exactly one
non-done descendant (`D1`) and one already-done descendant `D2`
(completed at `"d1"`).  Confirming the transition of `T` to done at time
`"d2"` also rewrites `D2`: the input record of `D2` does not survive into
the result, so a task other than `T` and the `N = 1` non-done descendants
changes, refuting the claim's "no other task changes". -/
theorem c1_counterexample :
    ((getDescendantTasks "T" cascadeTasks).filter
      (fun t => t.state ≠ "done")).map Task.id = ["D1"]
    ∧ tskD2 ∈ cascadeTasks ∧ tskD2.state = "done" ∧ tskD2.id ≠ "T"
    ∧ tskD2 ∉ (updateTask cascadeTasks "T" { state := some "done" } true "d2").1 := by
  decide

/-- **C1 (amended).** When a task `T` transitions to done and the user
confirms, `T` and every transitive descendant of `T` — the non-done ones
and also the already-done ones — end with state done and completion
timestamp `now`, while every task whose id is outside that set is
unchanged; if the user declines while some descendant is not done, no
task changes and no write is dispatched. -/
theorem c1_done_cascade (tasks : List Task) (tid now : String) (t : Task)
    (ht : t ∈ tasks) :
    ((t.id = tid ∨ t.id ∈ (getDescendantTasks tid tasks).map Task.id →
        { t with state := "done", doneAt := some now, updatedAt := now }
          ∈ (updateTask tasks tid { state := some "done" } true now).1)
      ∧ (¬(t.id = tid ∨ t.id ∈ (getDescendantTasks tid tasks).map Task.id) →
          t ∈ (updateTask tasks tid { state := some "done" } true now).1))
    ∧ (((getDescendantTasks tid tasks).filter (fun x => x.state ≠ "done")).length > 0 →
        updateTask tasks tid { state := some "done" } false now = (tasks, [])) := by
  refine ⟨⟨fun hc => ?_, fun hc => ?_⟩,
    fun hinc => updateTask_done_declined _ _ _ _ rfl hinc⟩
  · have h := updateTask_done_mem tasks tid now t ht
    rw [if_pos hc] at h
    exact h
  · have h := updateTask_done_mem tasks tid now t ht
    rw [if_neg hc] at h
    exact h

/-- **C1 witness.** On the concrete scenario: the already-done descendant
`D2` re-appears with timestamps rewritten to `"d2"`, the unrelated
declined call is a no-op. -/
theorem c1_done_cascade_witness :
    ({ tskD2 with state := "done", doneAt := some "d2", updatedAt := "d2" } : Task)
      ∈ (updateTask cascadeTasks "T" { state := some "done" } true "d2").1
    ∧ updateTask cascadeTasks "T" { state := some "done" } false "d2" = (cascadeTasks, []) :=
  ⟨(c1_done_cascade cascadeTasks "T" "d2" tskD2 (by decide)).1.1 (by decide),
   (c1_done_cascade cascadeTasks "T" "d2" tskD2 (by decide)).2 (by decide)⟩

/-- **C2.** Declining the confirmation prompt of either cascade — marking
a task done that has non-done descendants, or marking a project done that
owns non-done tasks — is a complete no-op: the local task collection, the
local project collection and the remote store (the dispatch trace is
empty) are all unchanged. -/
theorem c2_decline_no_mutation (tasks : List Task) (projects : List Project)
    (tid pid now : String) :
    (((getDescendantTasks tid tasks).filter (fun t => t.state ≠ "done")).length > 0 →
       updateTask tasks tid { state := some "done" } false now = (tasks, []))
    ∧ (((tasks.filter (fun t => t.projectId = some pid)).filter
        (fun t => t.state ≠ "done")).length > 0 →
       setProjectState tasks projects pid "done" false now = (tasks, projects, [])) :=
  ⟨fun h => updateTask_done_declined _ _ _ _ rfl h,
   fun h => setProjectState_declined _ _ _ _ h⟩

/-- **C2 witness.** Both declined cascades on the concrete scenario: task
`T` (one incomplete descendant) and project `p1` (two incomplete tasks)
are left fully unchanged with an empty trace. -/
theorem c2_decline_no_mutation_witness :
    updateTask cascadeTasks "T" { state := some "done" } false "d2" = (cascadeTasks, [])
    ∧ setProjectState cascadeTasks [projHome] "p1" "done" false "d2"
        = (cascadeTasks, [projHome], []) :=
  ⟨(c2_decline_no_mutation cascadeTasks [projHome] "T" "p1" "d2").1 (by decide),
   (c2_decline_no_mutation cascadeTasks [projHome] "T" "p1" "d2").2 (by decide)⟩

/-- **C3.** Setting a project's state to done while it owns at least one
non-done task requires confirmation (declining leaves everything
unchanged), and after confirmation every task owned by the project has
state done and a non-null completion timestamp (assuming, as the
application maintains, that already-done tasks carry one). -/
theorem c3_project_done_cascade (tasks : List Task) (projects : List Project)
    (pid now : String)
    (hdoneAt : ∀ t ∈ tasks, t.projectId = some pid → t.state = "done" → t.doneAt ≠ none)
    (hinc : ((tasks.filter (fun t => t.projectId = some pid)).filter
      (fun t => t.state ≠ "done")).length > 0) :
    (setProjectState tasks projects pid "done" false now = (tasks, projects, []))
    ∧ (∀ t ∈ (setProjectState tasks projects pid "done" true now).1,
        t.projectId = some pid → t.state = "done" ∧ t.doneAt ≠ none) := by
  refine ⟨setProjectState_declined _ _ _ _ hinc, ?_⟩
  rw [setProjectState_confirmed _ _ _ _ hinc]
  intro t htmem hproj
  rcases List.mem_map.mp htmem with ⟨u, hu, hut⟩
  by_cases hc : u.projectId ≠ some pid ∨ u.state = "done"
  · rw [if_pos hc] at hut
    subst hut
    rcases hc with hc | hc
    · exact absurd hproj hc
    · exact ⟨hc, hdoneAt u hu hproj hc⟩
  · rw [if_neg hc] at hut
    subst hut
    exact ⟨rfl, by simp⟩

/-- **C3 witness.** The concrete 3-task project (2 active, 1 done):
after confirmation the root task `T` re-appears as done with the
completion timestamp `"d2"` set. -/
theorem c3_project_done_cascade_witness :
    ({ tskT with state := "done", doneAt := some "d2", updatedAt := "d2" } : Task).state
        = "done"
    ∧ ({ tskT with state := "done", doneAt := some "d2", updatedAt := "d2" } : Task).doneAt
        ≠ none :=
  (c3_project_done_cascade cascadeTasks [projHome] "p1" "d2"
      (by decide) (by decide)).2
    { tskT with state := "done", doneAt := some "d2", updatedAt := "d2" }
    (by decide) (by decide)

/-- **C4.** Transitioning a task out of done to any other state clears
its completion timestamp and cascades to no other task (every task with a
different id is unchanged); transitioning a task into done from a
non-done state sets its completion timestamp to the current time. -/
theorem c4_doneAt_transitions (tasks : List Task) (tid now : String) (c : Bool)
    (t : Task) (ht : t ∈ tasks) (s : String) (hs : s ∈ taskStates) (hsd : s ≠ "done") :
    (t.id = tid → t.state = "done" →
       ({ t with state := s, doneAt := none, updatedAt := now } : Task)
         ∈ (updateTask tasks tid { state := some s } c now).1)
    ∧ (∀ u ∈ tasks, u.id ≠ tid →
        u ∈ (updateTask tasks tid { state := some s } c now).1)
    ∧ (t.id = tid → t.state ≠ "done" →
       ({ t with state := "done", doneAt := some now, updatedAt := now } : Task)
         ∈ (updateTask tasks tid { state := some "done" } true now).1) := by
  have hsome : ({ state := some s } : TaskPatch).state ≠ some "done" := by
    simpa using hsd
  have hne : s ≠ "" := by
    simp only [taskStates, List.mem_cons, List.not_mem_nil, or_false] at hs
    rcases hs with rfl | rfl | rfl | rfl <;> decide
  refine ⟨fun hid hdone => ?_, fun u hu hne2 => ?_, fun hid hdone => ?_⟩
  · rw [updateTask_nondone _ _ _ _ _ hsome]
    have h := List.mem_map_of_mem (fun task : Task =>
        if task.id ≠ tid then task
        else { applyPatch task ({ state := some s } : TaskPatch) with
               doneAt := if jsTruthyStr ({ state := some s } : TaskPatch).state
                   ∧ task.state = "done" then none
                 else task.doneAt,
               updatedAt := now }) ht
    have heq : (fun task : Task =>
        if task.id ≠ tid then task
        else { applyPatch task ({ state := some s } : TaskPatch) with
               doneAt := if jsTruthyStr ({ state := some s } : TaskPatch).state
                   ∧ task.state = "done" then none
                 else task.doneAt,
               updatedAt := now }) t
        = ({ t with state := s, doneAt := none, updatedAt := now } : Task) := by
      simp [applyPatch, jsTruthyStr, hid, hdone, hne]
    rw [heq] at h
    exact h
  · rw [updateTask_nondone _ _ _ _ _ hsome]
    have h := List.mem_map_of_mem (fun task : Task =>
        if task.id ≠ tid then task
        else { applyPatch task ({ state := some s } : TaskPatch) with
               doneAt := if jsTruthyStr ({ state := some s } : TaskPatch).state
                   ∧ task.state = "done" then none
                 else task.doneAt,
               updatedAt := now }) hu
    simp only at h
    rw [if_pos hne2] at h
    exact h
  · have h := updateTask_done_mem tasks tid now t ht
    rw [if_pos (Or.inl hid)] at h
    exact h

/-- **C4 witness.** A single done task `X` moved to `active` re-appears
with the completion timestamp cleared; the active root `T` moved into
done re-appears with the completion timestamp `"d2"`. -/
theorem c4_doneAt_transitions_witness :
    ({ tskD2 with state := "active", doneAt := none, updatedAt := "d2" } : Task)
      ∈ (updateTask [tskD2] "D2" { state := some "active" } false "d2").1
    ∧ ({ tskT with state := "done", doneAt := some "d2", updatedAt := "d2" } : Task)
      ∈ (updateTask cascadeTasks "T" { state := some "done" } true "d2").1 :=
  ⟨(c4_doneAt_transitions [tskD2] "D2" "d2" false tskD2 (by decide) "active"
      (by decide) (by decide)).1 rfl rfl,
   (c4_doneAt_transitions cascadeTasks "T" "d2" false tskT (by decide) "active"
      (by decide) (by decide)).2.2 rfl (by decide)⟩

/-- **C5 counterexample.** Quick-add dispatches its remote insert
*before* the local cache update: the trace of quick-adding `"Buy milk"`
to an empty list starts with the remote insert batch, so the local-before-
remote ordering the claim asserts for every mutation fails on this
input. -/
theorem c5_counterexample :
    (addQuickTask [] "Buy milk" "g1" "d0").2 =
      [Event.remoteBatch [RemoteOp.insertTask "Buy milk" 10], Event.localUpdate "tasks"]
    ∧ localBeforeRemote (addQuickTask [] "Buy milk" "g1" "d0").2 = false := by
  decide

/-- **C5 (amended).** For task updates (`updateTask`, in every branch:
cascade, declined, and plain field update) the local cache update is
dispatched before any remote write, and a confirmed completion cascade
issues all its remote writes together as a single concurrent batch
covering the task and every descendant; quick-add, by contrast, awaits
its remote insert (whose generated id the local record needs) before the
local cache update. -/
theorem c5_local_before_remote (tasks : List Task) (tid now : String)
    (patch : TaskPatch) (c : Bool) :
    localBeforeRemote (updateTask tasks tid patch c now).2 = true
    ∧ (patch.state = some "done" →
        (updateTask tasks tid patch true now).2 =
          [Event.localUpdate "tasks",
           Event.remoteBatch ((tid :: (getDescendantTasks tid tasks).map Task.id).map
             RemoteOp.updateTaskDone)]) := by
  constructor
  · by_cases hp : patch.state = some "done"
    · by_cases hguard : ((getDescendantTasks tid tasks).filter
          (fun t => t.state ≠ "done")).length > 0 ∧ ¬c
      · obtain ⟨h1, h2⟩ := hguard
        have hc : c = false := by simpa using h2
        subst hc
        rw [updateTask_done_declined _ _ _ _ hp h1]
        rfl
      · rw [updateTask_done_proceeds _ _ _ _ _ hp hguard]
        rfl
    · rw [updateTask_nondone _ _ _ _ _ hp]
      rfl
  · intro hp
    rw [updateTask_done_confirmed _ _ _ _ hp]

/-- **C5 witness.** The confirmed completion cascade of `T` on the
concrete scenario: local update first, then one remote batch covering
`T`, `D1` and `D2`. -/
theorem c5_local_before_remote_witness :
    localBeforeRemote (updateTask cascadeTasks "T" { state := some "done" } true "d2").2
        = true
    ∧ (updateTask cascadeTasks "T" { state := some "done" } true "d2").2 =
        [Event.localUpdate "tasks",
         Event.remoteBatch (("T" :: (getDescendantTasks "T" cascadeTasks).map Task.id).map
           RemoteOp.updateTaskDone)] :=
  ⟨(c5_local_before_remote cascadeTasks "T" "d2" { state := some "done" } true).1,
   (c5_local_before_remote cascadeTasks "T" "d2" { state := some "done" } true).2 rfl⟩

/-- **C8.** When a task transitions to done with the prompt (if any)
confirmed, the cascade update set is the task together with ALL its
transitive descendants, including those already done: every descendant
re-appears with state done and both `doneAt` and `updatedAt` overwritten
with the current time, so a previously recorded completion timestamp is
replaced. -/
theorem c8_cascade_overwrites_done_descendants (tasks : List Task) (tid now : String)
    (d : Task) (hd : d ∈ getDescendantTasks tid tasks) :
    ({ d with state := "done", doneAt := some now, updatedAt := now } : Task)
      ∈ (updateTask tasks tid { state := some "done" } true now).1 := by
  have ht : d ∈ tasks := mem_of_mem_getDescendantTasks hd
  have h := updateTask_done_mem tasks tid now d ht
  rw [if_pos (Or.inr (List.mem_map_of_mem Task.id hd))] at h
  exact h

/-- **C8 witness.** The already-done descendant `D2` (completed at
`"d1"`) re-appears after the cascade with `doneAt` overwritten to
`"d2"`. -/
theorem c8_cascade_overwrites_done_descendants_witness :
    ({ tskD2 with state := "done", doneAt := some "d2", updatedAt := "d2" } : Task)
      ∈ (updateTask cascadeTasks "T" { state := some "done" } true "d2").1 :=
  c8_cascade_overwrites_done_descendants cascadeTasks "T" "d2" tskD2 (by decide)

/-- **C6.** For every raw stored record, the data mapper produces a
canonical record without raising an error (the mapper is a total
function): an `order` field that is absent or not a number maps to 0, a
missing `state` maps to `inbox`, and a missing project `name` maps to
`"Untitled"`. -/
theorem c6_mapper_defaults (id now : String) (d : RawTaskDoc) (p : RawProjectDoc) :
    ((∀ n : Int, d.order ≠ some (RawValue.vnum n)) → (mapTaskDoc id d now).order = 0)
    ∧ (d.state = none → (mapTaskDoc id d now).state = "inbox")
    ∧ (p.name = none → (mapProjectDoc id p now).name = "Untitled") := by
  refine ⟨fun h => ?_, fun h => ?_, fun h => ?_⟩
  · cases ho : d.order with
    | none => simp [mapTaskDoc, ho]
    | some v =>
      cases v with
      | vstr s => simp [mapTaskDoc, ho]
      | vtimestamp s => simp [mapTaskDoc, ho]
      | vnum n => exact absurd ho (h n)
      | vnull => simp [mapTaskDoc, ho]
  · simp [mapTaskDoc, h]
  · simp [mapProjectDoc, h]

/-- **C6 witness.** A stored task record missing both `order` and `state`
maps to a task with `order = 0` and `state = inbox`; a project record
missing `name` maps to `"Untitled"`. -/
theorem c6_mapper_defaults_witness :
    (mapTaskDoc "t9" {} "d0").order = 0 ∧ (mapTaskDoc "t9" {} "d0").state = "inbox"
    ∧ (mapProjectDoc "p9" {} "d0").name = "Untitled" :=
  ⟨(c6_mapper_defaults "t9" "d0" {} {}).1 (fun n => by simp),
   (c6_mapper_defaults "t9" "d0" {} {}).2.1 rfl,
   (c6_mapper_defaults "t9" "d0" {} {}).2.2 rfl⟩

/-- **C7.** The derived Inbox view contains exactly the tasks whose state
is `inbox`, and it is sorted ascending by numeric sort order. -/
theorem c7_inbox_view (tasks : List Task) (t : Task) :
    (t ∈ inboxTasks tasks ↔ t ∈ tasks ∧ t.state = "inbox")
    ∧ (inboxTasks tasks).Pairwise (fun a b => a.order ≤ b.order) := by
  constructor
  · simp [inboxTasks, List.mem_mergeSort, List.mem_filter]
  · have h := @List.sorted_mergeSort Task
      (fun (a b : Task) => decide (a.order ≤ b.order))
      (fun a b c hab hbc => by
        simp only [decide_eq_true_eq] at *
        exact le_trans hab hbc)
      (fun a b => by
        simp only [Bool.or_eq_true, decide_eq_true_eq]
        exact Int.le_total a.order b.order)
      (tasks.filter (fun t => t.state = "inbox"))
    exact h.imp (fun hab => by simpa using hab)

/-- **C9.** The task data mapper validates only absence of the `state`
field, not validity: a present `state` value is kept verbatim, even when
it is not an enumerated task state; only an absent state defaults to
`inbox`. -/
theorem c9_state_unvalidated (id now : String) (d : RawTaskDoc) (s : String) :
    (d.state = some s → (mapTaskDoc id d now).state = s)
    ∧ (d.state = none → (mapTaskDoc id d now).state = "inbox") := by
  constructor
  · intro h; simp [mapTaskDoc, h]
  · intro h; simp [mapTaskDoc, h]

/-- **C9 witness.** A stored record with the non-enumerated state value
`"someday"` maps to a task whose state is `"someday"`, not `inbox`. -/
theorem c9_state_unvalidated_witness :
    (mapTaskDoc "t8" { state := some "someday" } "d0").state = "someday"
    ∧ "someday" ∉ taskStates :=
  ⟨(c9_state_unvalidated "t8" "d0" { state := some "someday" } "someday").1 rfl,
   by decide⟩

/-- **C10.** Quick-add with blank (empty or whitespace-only) input is a
complete no-op: the task list is unchanged and no remote insert is
issued; for non-blank input exactly one task is appended and its text is
the trimmed input. -/
theorem c10_quickadd_blank_noop (tasks : List Task) (txt gid now : String) :
    (jsTrim txt = "" → addQuickTask tasks txt gid now = (tasks, []))
    ∧ (jsTrim txt ≠ "" → ∃ newTask : Task,
        (addQuickTask tasks txt gid now).1 = tasks ++ [newTask]
        ∧ newTask.text = jsTrim txt ∧ newTask.state = "inbox") := by
  constructor
  · intro h; simp [addQuickTask, h]
  · intro h
    refine ⟨{ id := gid, text := jsTrim txt, projectId := some "p-default",
              parentId := none, state := "inbox", createdAt := now, updatedAt := now,
              dueAt := none, scheduledAt := none, doneAt := none,
              order := (match (tasks.filter (fun t => t.parentId = none)).map Task.order with
                | [] => 0
                | x :: xs => xs.foldl max x) + 10 }, ?_, rfl, rfl⟩
    simp [addQuickTask, h]

/-- **C10 witness.** Quick-add of a whitespace-only string leaves an
example task list unchanged with no remote write; quick-add of
`" Buy milk "` appends one inbox task whose text is the trimmed
`"Buy milk"`. -/
theorem c10_quickadd_blank_noop_witness :
    addQuickTask [] "   " "g2" "d3" = ([], [])
    ∧ ∃ newTask : Task, (addQuickTask [] " Buy milk " "g2" "d3").1 = [] ++ [newTask]
        ∧ newTask.text = jsTrim " Buy milk " ∧ newTask.state = "inbox" :=
  ⟨(c10_quickadd_blank_noop [] "   " "g2" "d3").1 (by decide),
   (c10_quickadd_blank_noop [] " Buy milk " "g2" "d3").2 (by decide)⟩

end TodoApp
